import Mathlib

/-!
Shallow embedding of `tensorflow/compiler/mlir/xla/transforms/legalize_to_standard.cc`.

The pass lowers XLA-HLO compare and iota operations to standard-dialect
operations.  Types, attributes, the three rewrite patterns
(`CompareIConvert`, `CompareFConvert`, `ConvertIotaOp`) and the greedy
fixpoint driver are modelled directly from the C++ source.  Machine
integers are modelled as `Nat`, with `% 2 ^ bitwidth` where the source
truncates through `APInt`, and fallible C++ integer division (division by
zero is undefined behaviour) is modelled with `Option`.
-/

/-- Element type of a shaped (tensor) type: integer with a bitwidth,
float with a bitwidth, or complex.  Mirrors the `isa<IntegerType>` /
`isa<FloatType>` classification in the source. -/
inductive ElemType : Type
  | int (bitwidth : Nat)
  | float (bitwidth : Nat)
  | complex
deriving DecidableEq

/-- `type.isa<IntegerType>()`. -/
def isaIntegerType : ElemType → Bool
  | ElemType.int _ => true
  | _ => false

/-- `type.isa<FloatType>()`. -/
def isaFloatType : ElemType → Bool
  | ElemType.float _ => true
  | _ => false

/-- A shaped (ranked tensor) type: an element type and a list of
dimension sizes. -/
structure TensorType : Type where
  elementType : ElemType
  shape : List Nat
deriving DecidableEq

/-- `ShapedType::getNumElements()`: the product of the dimension sizes. -/
def getNumElements (ty : TensorType) : Nat :=
  ty.shape.prod

/-- `ShapedType::getDimSize(i)`. -/
def getDimSize (shape : List Nat) (i : Nat) : Nat :=
  shape.getD i 0

/-- An SSA value: an identity and its type. -/
structure Value : Type where
  id : Nat
  type : TensorType
deriving DecidableEq

/-- `xla_hlo::CompareOp`: two operands and a `comparison_direction`
string attribute. -/
structure CompareOp : Type where
  lhs : Value
  rhs : Value
  comparison_direction : String
deriving DecidableEq

/-- `xla_hlo::IotaOp`: one shaped result type and the `iota_dimension`
attribute. -/
structure IotaOp : Type where
  output_type : TensorType
  iota_dimension : Nat
deriving DecidableEq

/-- `CmpIPredicate`: the standard-dialect integer compare predicates used
by this pass. -/
inductive CmpIPredicate : Type
  | eq | ne | slt | sle | sgt | sge
deriving DecidableEq

/-- `CmpFPredicate`: the standard-dialect float compare predicates used by
this pass, plus the `NumPredicates` sentinel the source uses as the
`StringSwitch` default. -/
inductive CmpFPredicate : Type
  | OEQ | UNE | OLT | OLE | OGT | OGE | NumPredicates
deriving DecidableEq

/-- A standard-dialect operation produced by a rewrite: `CmpIOp`,
`CmpFOp`, or `ConstantOp` holding a dense integer constant (flat
row-major list of stored element values). -/
inductive StdOp : Type
  | cmpI (predicate : CmpIPredicate) (lhs rhs : Value)
  | cmpF (predicate : CmpFPredicate) (lhs rhs : Value)
  | constant (ty : TensorType) (values : List Nat)
deriving DecidableEq

/-- Outcome of `matchAndRewrite`: `matchFailure`, a replacement
(`matchSuccess` after `replaceOpWithNewOp`), or undefined behaviour from
an integer division by zero. -/
inductive RewriteResult : Type
  | matchFailure
  | replaceWith (newOp : StdOp)
  | divByZero
deriving DecidableEq

/-- The `llvm::StringSwitch<Optional<CmpIPredicate>>` in
`CompareIConvert::matchAndRewrite`. -/
def compareIPredicate (comparison_direction : String) : Option CmpIPredicate :=
  if comparison_direction = "EQ" then some CmpIPredicate.eq
  else if comparison_direction = "NE" then some CmpIPredicate.ne
  else if comparison_direction = "LT" then some CmpIPredicate.slt
  else if comparison_direction = "LE" then some CmpIPredicate.sle
  else if comparison_direction = "GT" then some CmpIPredicate.sgt
  else if comparison_direction = "GE" then some CmpIPredicate.sge
  else none

/-- The `llvm::StringSwitch<CmpFPredicate>` in
`CompareFConvert::matchAndRewrite`, defaulting to `NumPredicates`. -/
def compareFPredicate (comparison_direction : String) : CmpFPredicate :=
  if comparison_direction = "EQ" then CmpFPredicate.OEQ
  else if comparison_direction = "NE" then CmpFPredicate.UNE
  else if comparison_direction = "LT" then CmpFPredicate.OLT
  else if comparison_direction = "LE" then CmpFPredicate.OLE
  else if comparison_direction = "GT" then CmpFPredicate.OGT
  else if comparison_direction = "GE" then CmpFPredicate.OGE
  else CmpFPredicate.NumPredicates

/-- `CompareIConvert::matchAndRewrite`. -/
def CompareIConvert (op : CompareOp) : RewriteResult :=
  let lhs := op.lhs
  let rhs := op.rhs
  let lhs_type := lhs.type
  let rhs_type := rhs.type
  -- Broadcasting not supported by this rewrite.
  if lhs_type.shape ≠ rhs_type.shape then RewriteResult.matchFailure
  else if !(isaIntegerType lhs_type.elementType) || !(isaIntegerType rhs_type.elementType) then
    RewriteResult.matchFailure
  else
    match compareIPredicate op.comparison_direction with
    | none => RewriteResult.matchFailure
    | some compare_predicate =>
      RewriteResult.replaceWith (StdOp.cmpI compare_predicate lhs rhs)

/-- `CompareFConvert::matchAndRewrite`. -/
def CompareFConvert (op : CompareOp) : RewriteResult :=
  let lhs := op.lhs
  let rhs := op.rhs
  let lhs_type := lhs.type
  let rhs_type := rhs.type
  -- Broadcasting not supported by this rewrite.
  if lhs_type.shape ≠ rhs_type.shape then RewriteResult.matchFailure
  else if !(isaFloatType lhs_type.elementType) || !(isaFloatType rhs_type.elementType) then
    RewriteResult.matchFailure
  else
    let compare_predicate := compareFPredicate op.comparison_direction
    if compare_predicate = CmpFPredicate.NumPredicates then RewriteResult.matchFailure
    else RewriteResult.replaceWith (StdOp.cmpF compare_predicate lhs rhs)

/-- C++ `int64_t` division; division by zero is undefined behaviour,
modelled as `none`. -/
def int64Div (a b : Nat) : Option Nat :=
  if b = 0 then none else some (a / b)

/-- C++ `int64_t` remainder; remainder by zero is undefined behaviour,
modelled as `none`. -/
def int64Mod (a b : Nat) : Option Nat :=
  if b = 0 then none else some (a % b)

/-- The stored bits of `APInt(bitwidth, value)` for a non-negative
`value`: the low `bitwidth` bits. -/
def APIntValue (bitwidth value : Nat) : Nat :=
  value % 2 ^ bitwidth

/-- The stride loop of `ConvertIotaOp::matchAndRewrite`:
`for (int i = 0; i <= dimension; i++) increase_stride /= getDimSize(i);`
folded over the dimension sizes at indices `0 .. dimension`. -/
def strideLoop : Nat → List Nat → Option Nat
  | s, [] => some s
  | s, d :: ds =>
    match int64Div s d with
    | none => none
    | some s2 => strideLoop s2 ds

/-- One iteration of the value loop of `ConvertIotaOp::matchAndRewrite`:
`value = (current_value / increase_stride) % max_dim_size;`
then `values.push_back(APInt(bitwidth, value))`. -/
def iotaBody (bitwidth increase_stride max_dim_size k : Nat) : Option Nat :=
  match int64Div k increase_stride with
  | none => none
  | some q =>
    match int64Mod q max_dim_size with
    | none => none
    | some value => some (APIntValue bitwidth value)

/-- Run an option-valued body over a whole list, failing if any element
fails (the C++ loop hits undefined behaviour at the first bad division). -/
def mapOption {α β : Type} (f : α → Option β) : List α → Option (List β)
  | [] => some []
  | a :: as =>
    match f a, mapOption f as with
    | some b, some bs => some (b :: bs)
    | _, _ => none

/-- The value loop of `ConvertIotaOp::matchAndRewrite`, over
`current_value = 0, 1, ..., output_size - 1`. -/
def iotaValues (bitwidth increase_stride max_dim_size output_size : Nat) : Option (List Nat) :=
  mapOption (iotaBody bitwidth increase_stride max_dim_size) (List.range output_size)

/-- `ConvertIotaOp::matchAndRewrite`. -/
def ConvertIotaOp (op : IotaOp) : RewriteResult :=
  let output_type := op.output_type
  -- TODO(prakalps) in the source: FP and ComplexType iota unhandled.
  match output_type.elementType with
  | ElemType.int bitwidth =>
    let output_size := getNumElements output_type
    let dimension := op.iota_dimension
    let max_dim_size := getDimSize output_type.shape dimension
    match strideLoop output_size (output_type.shape.take (dimension + 1)) with
    | none => RewriteResult.divByZero
    | some increase_stride =>
      match iotaValues bitwidth increase_stride max_dim_size output_size with
      | none => RewriteResult.divByZero
      | some values =>
        RewriteResult.replaceWith (StdOp.constant output_type values)
  | _ => RewriteResult.matchFailure

/-- An operation in a function body: an XLA-HLO compare, an XLA-HLO iota,
or an already-standard operation. -/
inductive Op : Type
  | compare (c : CompareOp)
  | iota (i : IotaOp)
  | std (s : StdOp)
deriving DecidableEq

/-- Offer one operation to the patterns in the registration order of
`PopulateXlaToStdPatterns` (`CompareFConvert`, `CompareIConvert`,
`ConvertIotaOp`); `some newOp` when the first matching pattern replaces
it, `none` when every pattern reports `matchFailure`. -/
def rewriteOne : Op → Option Op
  | Op.compare c =>
    match CompareFConvert c with
    | RewriteResult.replaceWith s => some (Op.std s)
    | _ =>
      match CompareIConvert c with
      | RewriteResult.replaceWith s => some (Op.std s)
      | _ => none
  | Op.iota i =>
    match ConvertIotaOp i with
    | RewriteResult.replaceWith s => some (Op.std s)
    | _ => none
  | Op.std _ => none

/-- One full sweep of `applyPatternsGreedily` over the function body:
each operation is replaced by its rewrite when a pattern matches, kept
otherwise. -/
def sweepBody (body : List Op) : List Op :=
  body.map (fun op => (rewriteOne op).getD op)

/-- The number of replacements a full sweep performs. -/
def sweepCount (body : List Op) : Nat :=
  body.countP (fun op => (rewriteOne op).isSome)

/-- The driver loop of `applyPatternsGreedily`: re-sweep until a full
sweep performs zero replacements, with fuel bounding the sweep count. -/
def greedyLoop : Nat → List Op → List Op
  | 0, body => body
  | Nat.succ fuel, body =>
    if sweepCount body = 0 then body else greedyLoop fuel (sweepBody body)

/-- `applyPatternsGreedily` as invoked by `LegalizeToStandard::runOnFunction`. -/
def applyPatternsGreedily (body : List Op) : List Op :=
  greedyLoop (body.length + 1) body

/-! ### Helper lemmas -/

theorem prod_pos_of_mem {l : List Nat} (h : 0 < l.prod) : ∀ d ∈ l, 0 < d := by
  induction l with
  | nil => intro d hd; cases hd
  | cons a as ih =>
    rw [List.prod_cons] at h
    intro d hd
    rcases List.mem_cons.mp hd with h1 | h2
    · subst h1
      exact Nat.pos_of_ne_zero fun ha => by simp [ha] at h
    · exact ih (Nat.pos_of_ne_zero fun hp => by simp [hp] at h) d h2

theorem strideLoop_exact (l : List Nat) (R : Nat) (h : ∀ d ∈ l, 0 < d) :
    strideLoop (l.prod * R) l = some R := by
  induction l generalizing R with
  | nil => simp [strideLoop, List.prod_nil]
  | cons a as ih =>
    have ha : 0 < a := h a (List.mem_cons_self a as)
    have hdiv : int64Div ((a :: as).prod * R) a = some (as.prod * R) := by
      rw [int64Div, if_neg (Nat.pos_iff_ne_zero.mp ha), List.prod_cons, Nat.mul_assoc,
        Nat.mul_div_cancel_left _ ha]
    simp only [strideLoop, hdiv]
    exact ih R fun d hd => h d (List.mem_cons_of_mem a hd)

theorem strideLoop_zero_mem (s : Nat) (l : List Nat) (h : (0 : Nat) ∈ l) :
    strideLoop s l = none := by
  induction l generalizing s with
  | nil => cases h
  | cons a as ih =>
    rcases List.mem_cons.mp h with h1 | h2
    · simp [strideLoop, int64Div, h1.symm]
    · by_cases ha : a = 0
      · simp [strideLoop, int64Div, ha]
      · simp only [strideLoop, int64Div, if_neg ha]
        exact ih _ h2

theorem mapOption_eq_map {α β : Type} (f : α → Option β) (g : α → β) (l : List α)
    (h : ∀ a ∈ l, f a = some (g a)) : mapOption f l = some (l.map g) := by
  induction l with
  | nil => rfl
  | cons a as ih =>
    have ha := h a (List.mem_cons_self a as)
    have has := ih fun x hx => h x (List.mem_cons_of_mem a hx)
    simp [mapOption, ha, has]

theorem iotaBody_eq {bitwidth increase_stride max_dim_size : Nat}
    (hs : increase_stride ≠ 0) (hm : max_dim_size ≠ 0) (k : Nat) :
    iotaBody bitwidth increase_stride max_dim_size k =
      some (((k / increase_stride) % max_dim_size) % 2 ^ bitwidth) := by
  simp [iotaBody, int64Div, int64Mod, APIntValue, hs, hm]

theorem getDimSize_eq_getElem {shape : List Nat} {dim : Nat} (h : dim < shape.length) :
    getDimSize shape dim = shape[dim] :=
  List.getD_eq_getElem shape 0 h

theorem getDimSize_mem_take {shape : List Nat} {dim : Nat} (h : dim < shape.length) :
    getDimSize shape dim ∈ shape.take (dim + 1) := by
  have hlt : dim < (shape.take (dim + 1)).length := by
    rw [List.length_take]
    exact lt_min (Nat.lt_succ_self dim) h
  have := List.getElem_mem hlt
  rwa [List.getElem_take, ← getDimSize_eq_getElem h] at this

/-- Normal form of the iota rewrite: under a well-formed dimension
attribute and strictly positive dimension sizes at indices `0 .. dim`,
the rule produces the dense constant whose flat row-major contents are
`((k / stride) % shape[dim]) % 2 ^ bitwidth` with `stride` the product of
the trailing dimension sizes. -/
theorem convertIota_norm (bw : Nat) (shape : List Nat) (dim : Nat)
    (hdim : dim < shape.length) (hpos : ∀ d ∈ shape.take (dim + 1), 0 < d) :
    ConvertIotaOp ⟨⟨ElemType.int bw, shape⟩, dim⟩ =
      RewriteResult.replaceWith (StdOp.constant ⟨ElemType.int bw, shape⟩
        ((List.range shape.prod).map fun k =>
          ((k / (shape.drop (dim + 1)).prod) % getDimSize shape dim) % 2 ^ bw)) := by
  have hprod : shape.prod = (shape.take (dim + 1)).prod * (shape.drop (dim + 1)).prod :=
    (List.prod_take_mul_prod_drop shape (dim + 1)).symm
  have hstride : strideLoop shape.prod (shape.take (dim + 1)) =
      some (shape.drop (dim + 1)).prod := by
    rw [hprod]
    exact strideLoop_exact _ _ hpos
  have hvals : iotaValues bw (shape.drop (dim + 1)).prod (getDimSize shape dim) shape.prod =
      some ((List.range shape.prod).map fun k =>
        ((k / (shape.drop (dim + 1)).prod) % getDimSize shape dim) % 2 ^ bw) := by
    by_cases h0 : shape.prod = 0
    · rw [h0]
      rfl
    · have hs : (shape.drop (dim + 1)).prod ≠ 0 := fun h => by
        rw [hprod, h, Nat.mul_zero] at h0
        exact h0 rfl
      have hm : getDimSize shape dim ≠ 0 :=
        Nat.pos_iff_ne_zero.mp (hpos _ (getDimSize_mem_take hdim))
      exact mapOption_eq_map _ _ _ fun k _ => iotaBody_eq hs hm k
  simp only [ConvertIotaOp, getNumElements, hstride, hvals]

/-! ### Driver lemmas -/

theorem rewriteOne_eq_some {op op2 : Op} (h : rewriteOne op = some op2) :
    ∃ s, op2 = Op.std s := by
  cases op with
  | compare c =>
    simp only [rewriteOne] at h
    split at h
    · exact ⟨_, (Option.some_inj.mp h).symm⟩
    · split at h
      · exact ⟨_, (Option.some_inj.mp h).symm⟩
      · cases h
  | iota i =>
    simp only [rewriteOne] at h
    split at h
    · exact ⟨_, (Option.some_inj.mp h).symm⟩
    · cases h
  | std s => cases h

theorem rewriteOne_of_rewriteOne {op op2 : Op} (h : rewriteOne op = some op2) :
    rewriteOne op2 = none := by
  rcases rewriteOne_eq_some h with ⟨s, rfl⟩
  rfl

theorem sweepBody_stuck (body : List Op) : ∀ x ∈ sweepBody body, rewriteOne x = none := by
  intro x hx
  rcases List.mem_map.mp hx with ⟨op, _, hmap⟩
  cases hro : rewriteOne op with
  | none =>
    rw [hro] at hmap
    simp only [Option.getD_none] at hmap
    rw [← hmap]
    exact hro
  | some y =>
    rw [hro] at hmap
    simp only [Option.getD_some] at hmap
    rw [← hmap]
    exact rewriteOne_of_rewriteOne hro

theorem sweepCount_eq_zero {body : List Op} (h : ∀ x ∈ body, rewriteOne x = none) :
    sweepCount body = 0 := by
  rw [sweepCount, List.countP_eq_zero]
  intro a ha
  simp [h a ha]

theorem sweepBody_eq_self {body : List Op} (h : ∀ x ∈ body, rewriteOne x = none) :
    sweepBody body = body := by
  induction body with
  | nil => rfl
  | cons a as ih =>
    have ha := h a (List.mem_cons_self a as)
    have has := ih fun x hx => h x (List.mem_cons_of_mem a hx)
    simp [sweepBody, ha] at has ⊢
    exact has

theorem greedyLoop_succ_converged {body : List Op} (fuel : Nat) (h : sweepCount body = 0) :
    greedyLoop (fuel + 1) body = body := by
  simp [greedyLoop, h]

theorem applyPatternsGreedily_eq (body : List Op) :
    applyPatternsGreedily body = if sweepCount body = 0 then body else sweepBody body := by
  by_cases h0 : sweepCount body = 0
  · rw [if_pos h0]
    exact greedyLoop_succ_converged body.length h0
  · rw [if_neg h0]
    cases body with
    | nil => exact absurd rfl h0
    | cons a as =>
      have hconv : sweepCount (sweepBody (a :: as)) = 0 :=
        sweepCount_eq_zero (sweepBody_stuck (a :: as))
      show greedyLoop (as.length + 1 + 1) (a :: as) = sweepBody (a :: as)
      rw [greedyLoop, if_neg h0]
      exact greedyLoop_succ_converged as.length hconv

/-! ### Claim theorems -/

/-- C2: for a comparison operation whose operands have identical shapes
and integer element kinds, the integer comparison rule rewrites each of
the six recognized direction strings to a `CmpIOp` on the same two
operands with the predicate from the fixed table EQ→eq, NE→ne,
LT→signed-lt, LE→signed-le, GT→signed-gt, GE→signed-ge. -/
theorem compare_int_predicate_table (op : CompareOp)
    (hsh : op.lhs.type.shape = op.rhs.type.shape)
    (hl : isaIntegerType op.lhs.type.elementType = true)
    (hr : isaIntegerType op.rhs.type.elementType = true) :
    (op.comparison_direction = "EQ" → CompareIConvert op =
      RewriteResult.replaceWith (StdOp.cmpI CmpIPredicate.eq op.lhs op.rhs)) ∧
    (op.comparison_direction = "NE" → CompareIConvert op =
      RewriteResult.replaceWith (StdOp.cmpI CmpIPredicate.ne op.lhs op.rhs)) ∧
    (op.comparison_direction = "LT" → CompareIConvert op =
      RewriteResult.replaceWith (StdOp.cmpI CmpIPredicate.slt op.lhs op.rhs)) ∧
    (op.comparison_direction = "LE" → CompareIConvert op =
      RewriteResult.replaceWith (StdOp.cmpI CmpIPredicate.sle op.lhs op.rhs)) ∧
    (op.comparison_direction = "GT" → CompareIConvert op =
      RewriteResult.replaceWith (StdOp.cmpI CmpIPredicate.sgt op.lhs op.rhs)) ∧
    (op.comparison_direction = "GE" → CompareIConvert op =
      RewriteResult.replaceWith (StdOp.cmpI CmpIPredicate.sge op.lhs op.rhs)) := by
  refine ⟨?_, ?_, ?_, ?_, ?_, ?_⟩ <;> intro hd <;>
    simp [CompareIConvert, compareIPredicate, hsh, hl, hr, hd]

/-- Witness for C2 at a concrete operation with direction `GT`. -/
theorem compare_int_predicate_table_witness :
    CompareIConvert ⟨⟨0, ElemType.int 32, [2]⟩, ⟨1, ElemType.int 32, [2]⟩, "GT"⟩ =
      RewriteResult.replaceWith (StdOp.cmpI CmpIPredicate.sgt
        ⟨0, ElemType.int 32, [2]⟩ ⟨1, ElemType.int 32, [2]⟩) :=
  (compare_int_predicate_table ⟨⟨0, ElemType.int 32, [2]⟩, ⟨1, ElemType.int 32, [2]⟩, "GT"⟩
    rfl rfl rfl).2.2.2.2.1 rfl

/-- C3: for a comparison operation whose operands have identical shapes
and float element kinds, the float comparison rule rewrites each of the
six recognized direction strings to a `CmpFOp` on the same two operands
with the predicate from the fixed table EQ→ordered-eq, NE→unordered-ne,
LT→ordered-lt, LE→ordered-le, GT→ordered-gt, GE→ordered-ge. -/
theorem compare_float_predicate_table (op : CompareOp)
    (hsh : op.lhs.type.shape = op.rhs.type.shape)
    (hl : isaFloatType op.lhs.type.elementType = true)
    (hr : isaFloatType op.rhs.type.elementType = true) :
    (op.comparison_direction = "EQ" → CompareFConvert op =
      RewriteResult.replaceWith (StdOp.cmpF CmpFPredicate.OEQ op.lhs op.rhs)) ∧
    (op.comparison_direction = "NE" → CompareFConvert op =
      RewriteResult.replaceWith (StdOp.cmpF CmpFPredicate.UNE op.lhs op.rhs)) ∧
    (op.comparison_direction = "LT" → CompareFConvert op =
      RewriteResult.replaceWith (StdOp.cmpF CmpFPredicate.OLT op.lhs op.rhs)) ∧
    (op.comparison_direction = "LE" → CompareFConvert op =
      RewriteResult.replaceWith (StdOp.cmpF CmpFPredicate.OLE op.lhs op.rhs)) ∧
    (op.comparison_direction = "GT" → CompareFConvert op =
      RewriteResult.replaceWith (StdOp.cmpF CmpFPredicate.OGT op.lhs op.rhs)) ∧
    (op.comparison_direction = "GE" → CompareFConvert op =
      RewriteResult.replaceWith (StdOp.cmpF CmpFPredicate.OGE op.lhs op.rhs)) := by
  refine ⟨?_, ?_, ?_, ?_, ?_, ?_⟩ <;> intro hd <;>
    simp [CompareFConvert, compareFPredicate, hsh, hl, hr, hd]

/-- Witness for C3 at a concrete operation with direction `LE`. -/
theorem compare_float_predicate_table_witness :
    CompareFConvert ⟨⟨0, ElemType.float 32, [4]⟩, ⟨1, ElemType.float 32, [4]⟩, "LE"⟩ =
      RewriteResult.replaceWith (StdOp.cmpF CmpFPredicate.OLE
        ⟨0, ElemType.float 32, [4]⟩ ⟨1, ElemType.float 32, [4]⟩) :=
  (compare_float_predicate_table ⟨⟨0, ElemType.float 32, [4]⟩, ⟨1, ElemType.float 32, [4]⟩, "LE"⟩
    rfl rfl rfl).2.2.2.1 rfl

/-- C4: a comparison operation whose operand shapes differ matches
neither comparison rule, and the driver leaves it unchanged. -/
theorem compare_shape_mismatch_inert (op : CompareOp)
    (h : op.lhs.type.shape ≠ op.rhs.type.shape) :
    CompareIConvert op = RewriteResult.matchFailure ∧
    CompareFConvert op = RewriteResult.matchFailure ∧
    rewriteOne (Op.compare op) = none := by
  have h1 : CompareIConvert op = RewriteResult.matchFailure := by
    simp [CompareIConvert, h]
  have h2 : CompareFConvert op = RewriteResult.matchFailure := by
    simp [CompareFConvert, h]
  exact ⟨h1, h2, by simp [rewriteOne, h1, h2]⟩

/-- Witness for C4 at a concrete operation with shapes `[2]` and `[3]`. -/
theorem compare_shape_mismatch_inert_witness :
    CompareIConvert ⟨⟨0, ElemType.int 32, [2]⟩, ⟨1, ElemType.int 32, [3]⟩, "EQ"⟩ =
      RewriteResult.matchFailure ∧
    CompareFConvert ⟨⟨0, ElemType.int 32, [2]⟩, ⟨1, ElemType.int 32, [3]⟩, "EQ"⟩ =
      RewriteResult.matchFailure ∧
    rewriteOne (Op.compare ⟨⟨0, ElemType.int 32, [2]⟩, ⟨1, ElemType.int 32, [3]⟩, "EQ"⟩) =
      none :=
  compare_shape_mismatch_inert ⟨⟨0, ElemType.int 32, [2]⟩, ⟨1, ElemType.int 32, [3]⟩, "EQ"⟩
    (by decide)

/-- C5: a comparison operation whose direction attribute is not one of
the six recognized strings matches neither comparison rule, and the
driver leaves it untouched. -/
theorem compare_unknown_direction_inert (op : CompareOp)
    (h : op.comparison_direction ∉ (["EQ", "NE", "LT", "LE", "GT", "GE"] : List String)) :
    CompareIConvert op = RewriteResult.matchFailure ∧
    CompareFConvert op = RewriteResult.matchFailure ∧
    rewriteOne (Op.compare op) = none := by
  simp only [List.mem_cons, List.not_mem_nil, or_false, not_or] at h
  obtain ⟨h1, h2, h3, h4, h5, h6⟩ := h
  have hp : compareIPredicate op.comparison_direction = none := by
    simp [compareIPredicate, h1, h2, h3, h4, h5, h6]
  have hf : compareFPredicate op.comparison_direction = CmpFPredicate.NumPredicates := by
    simp [compareFPredicate, h1, h2, h3, h4, h5, h6]
  have hi : CompareIConvert op = RewriteResult.matchFailure := by
    simp [CompareIConvert, hp]
  have hff : CompareFConvert op = RewriteResult.matchFailure := by
    simp [CompareFConvert, hf]
  exact ⟨hi, hff, by simp [rewriteOne, hi, hff]⟩

/-- Witness for C5 at a concrete operation with direction `"FOO"`. -/
theorem compare_unknown_direction_inert_witness :
    CompareIConvert ⟨⟨0, ElemType.int 32, [2]⟩, ⟨1, ElemType.int 32, [2]⟩, "FOO"⟩ =
      RewriteResult.matchFailure ∧
    CompareFConvert ⟨⟨0, ElemType.int 32, [2]⟩, ⟨1, ElemType.int 32, [2]⟩, "FOO"⟩ =
      RewriteResult.matchFailure ∧
    rewriteOne (Op.compare ⟨⟨0, ElemType.int 32, [2]⟩, ⟨1, ElemType.int 32, [2]⟩, "FOO"⟩) =
      none :=
  compare_unknown_direction_inert ⟨⟨0, ElemType.int 32, [2]⟩, ⟨1, ElemType.int 32, [2]⟩, "FOO"⟩
    (by decide)

/-- C1 counterexample: for the iota operation of element type `i1` and
shape `[3]` with dimension 0, the rule produces the flat values
`[0, 1, 0]` — the stored value at flat index 2 is not the coordinate
`(2 / stride) % shape[0] = 2`, because the element is stored at the
result bitwidth. -/
theorem iota_exact_coordinate_counterexample :
    ConvertIotaOp ⟨⟨ElemType.int 1, [3]⟩, 0⟩ =
      RewriteResult.replaceWith (StdOp.constant ⟨ElemType.int 1, [3]⟩ [0, 1, 0]) ∧
    ([0, 1, 0] : List Nat).getD 2 0 ≠
      (2 / (([3] : List Nat).drop (0 + 1)).prod) % getDimSize [3] 0 := by
  decide

/-- C1 (amended): for every iota operation with integer result element
kind, valid dimension attribute `dim`, and strictly positive dimension
sizes at indices `0 .. dim`, the rule replaces it with a dense constant
of `total` flat row-major values whose value at flat index `k` is
`((k / stride) % shape[dim]) % 2 ^ bitwidth`, where `stride` is the
product of the dimension sizes after `dim`. -/
theorem iota_lowering_rowmajor_ramp (bw : Nat) (shape : List Nat) (dim : Nat)
    (hdim : dim < shape.length) (hpos : ∀ d ∈ shape.take (dim + 1), 0 < d) :
    ∃ values : List Nat,
      ConvertIotaOp ⟨⟨ElemType.int bw, shape⟩, dim⟩ =
        RewriteResult.replaceWith (StdOp.constant ⟨ElemType.int bw, shape⟩ values) ∧
      values.length = shape.prod ∧
      ∀ k, k < shape.prod → values.getD k 0 =
        ((k / (shape.drop (dim + 1)).prod) % getDimSize shape dim) % 2 ^ bw := by
  refine ⟨_, convertIota_norm bw shape dim hdim hpos, by simp, ?_⟩
  intro k hk
  have hk' : k < ((List.range shape.prod).map fun k =>
      ((k / (shape.drop (dim + 1)).prod) % getDimSize shape dim) % 2 ^ bw).length := by
    simpa using hk
  rw [List.getD_eq_getElem _ _ hk', List.getElem_map, List.getElem_range]

/-- Witness for C1 (amended) at element type `i8`, shape `[2, 3]`,
dimension 1. -/
theorem iota_lowering_rowmajor_ramp_witness :
    ∃ values : List Nat,
      ConvertIotaOp ⟨⟨ElemType.int 8, [2, 3]⟩, 1⟩ =
        RewriteResult.replaceWith (StdOp.constant ⟨ElemType.int 8, [2, 3]⟩ values) ∧
      values.length = ([2, 3] : List Nat).prod ∧
      ∀ k, k < ([2, 3] : List Nat).prod → values.getD k 0 =
        ((k / (([2, 3] : List Nat).drop (1 + 1)).prod) % getDimSize [2, 3] 1) % 2 ^ 8 :=
  iota_lowering_rowmajor_ramp 8 [2, 3] 1 (by decide) (by decide)

/-- C6: an iota operation whose result element kind is not integer
(float or complex) never matches the iota rule and survives the driver
unrewritten. -/
theorem iota_unsupported_elem_kind_inert (op : IotaOp)
    (h : isaIntegerType op.output_type.elementType = false) :
    ConvertIotaOp op = RewriteResult.matchFailure ∧
    rewriteOne (Op.iota op) = none ∧
    ∀ body : List Op, Op.iota op ∈ body → Op.iota op ∈ applyPatternsGreedily body := by
  have h1 : ConvertIotaOp op = RewriteResult.matchFailure := by
    obtain ⟨⟨et, shape⟩, dim⟩ := op
    cases et with
    | int bw => simp [isaIntegerType] at h
    | float bw => rfl
    | complex => rfl
  have h2 : rewriteOne (Op.iota op) = none := by simp [rewriteOne, h1]
  refine ⟨h1, h2, ?_⟩
  intro body hmem
  rw [applyPatternsGreedily_eq]
  by_cases h0 : sweepCount body = 0
  · rw [if_pos h0]
    exact hmem
  · rw [if_neg h0, sweepBody]
    have hmap := List.mem_map_of_mem (fun x => (rewriteOne x).getD x) hmem
    simpa [h2] using hmap

/-- Witness for C6 at a float-typed iota operation. -/
theorem iota_unsupported_elem_kind_inert_witness :
    ConvertIotaOp ⟨⟨ElemType.float 32, [2, 3]⟩, 1⟩ = RewriteResult.matchFailure :=
  (iota_unsupported_elem_kind_inert ⟨⟨ElemType.float 32, [2, 3]⟩, 1⟩ rfl).1

/-- C7: for strictly positive dimension sizes and a valid dimension
index, the stride the loop computes by repeated integer division equals
the closed form `total / (d0 * ... * ddim)`, which equals the product of
the dimension sizes after `dim`. -/
theorem iota_stride_loop_eq_closed_form (shape : List Nat) (dim : Nat)
    (hpos : ∀ d ∈ shape, 0 < d) (_hdim : dim < shape.length) :
    strideLoop shape.prod (shape.take (dim + 1)) =
      some (shape.prod / (shape.take (dim + 1)).prod) ∧
    shape.prod / (shape.take (dim + 1)).prod = (shape.drop (dim + 1)).prod := by
  have hpos' : ∀ d ∈ shape.take (dim + 1), 0 < d := fun d hd =>
    hpos d (List.take_subset _ _ hd)
  have htp : 0 < (shape.take (dim + 1)).prod := List.prod_pos hpos'
  have hprod : shape.prod = (shape.take (dim + 1)).prod * (shape.drop (dim + 1)).prod :=
    (List.prod_take_mul_prod_drop shape (dim + 1)).symm
  have hdiv : shape.prod / (shape.take (dim + 1)).prod = (shape.drop (dim + 1)).prod := by
    rw [hprod, Nat.mul_div_cancel_left _ htp]
  refine ⟨?_, hdiv⟩
  rw [hdiv, hprod]
  exact strideLoop_exact _ _ hpos'

/-- Witness for C7 at shape `[2, 3, 4]`, dimension 1. -/
theorem iota_stride_loop_eq_closed_form_witness :
    strideLoop ([2, 3, 4] : List Nat).prod (([2, 3, 4] : List Nat).take (1 + 1)) =
      some (([2, 3, 4] : List Nat).prod / (([2, 3, 4] : List Nat).take (1 + 1)).prod) ∧
    ([2, 3, 4] : List Nat).prod / (([2, 3, 4] : List Nat).take (1 + 1)).prod =
      (([2, 3, 4] : List Nat).drop (1 + 1)).prod :=
  iota_stride_loop_eq_closed_form [2, 3, 4] 1 (by decide) (by decide)

/-- C8: the driver's output is converged — re-running the driver on it
performs zero replacements and returns the same function body. -/
theorem legalize_driver_idempotent (body : List Op) :
    sweepCount (applyPatternsGreedily body) = 0 ∧
    applyPatternsGreedily (applyPatternsGreedily body) = applyPatternsGreedily body := by
  have h0 : sweepCount (applyPatternsGreedily body) = 0 := by
    rw [applyPatternsGreedily_eq]
    by_cases h : sweepCount body = 0
    · rw [if_pos h]
      exact h
    · rw [if_neg h]
      exact sweepCount_eq_zero (sweepBody_stuck body)
  refine ⟨h0, ?_⟩
  rw [applyPatternsGreedily_eq (applyPatternsGreedily body), if_pos h0]

/-- C9: with every dimension size at indices `0 .. dim` strictly
positive no division in the iota rule divides by zero and the rewrite
succeeds; with a zero-sized dimension at or before `dim` the stride
computation divides by zero. -/
theorem iota_stride_division_safety (bw : Nat) (shape : List Nat) (dim : Nat)
    (hdim : dim < shape.length) :
    ((∀ d ∈ shape.take (dim + 1), 0 < d) →
      ∃ values, ConvertIotaOp ⟨⟨ElemType.int bw, shape⟩, dim⟩ =
        RewriteResult.replaceWith (StdOp.constant ⟨ElemType.int bw, shape⟩ values)) ∧
    ((∃ d ∈ shape.take (dim + 1), d = 0) →
      ConvertIotaOp ⟨⟨ElemType.int bw, shape⟩, dim⟩ = RewriteResult.divByZero) := by
  constructor
  · intro hpos
    exact ⟨_, convertIota_norm bw shape dim hdim hpos⟩
  · rintro ⟨d, hd, rfl⟩
    have hnone : strideLoop shape.prod (shape.take (dim + 1)) = none :=
      strideLoop_zero_mem _ _ hd
    simp only [ConvertIotaOp, getNumElements, hnone]

/-- Witness for C9: shape `[2, 3]` at dimension 1 rewrites without
division by zero; shape `[0, 3]` at dimension 0 divides by zero. -/
theorem iota_stride_division_safety_witness :
    (∃ values, ConvertIotaOp ⟨⟨ElemType.int 32, [2, 3]⟩, 1⟩ =
      RewriteResult.replaceWith (StdOp.constant ⟨ElemType.int 32, [2, 3]⟩ values)) ∧
    ConvertIotaOp ⟨⟨ElemType.int 32, [0, 3]⟩, 0⟩ = RewriteResult.divByZero :=
  ⟨(iota_stride_division_safety 32 [2, 3] 1 (by decide)).1 (by decide),
   (iota_stride_division_safety 32 [0, 3] 0 (by decide)).2 ⟨0, by decide, rfl⟩⟩

/-- C10: each iota element is stored at the result bitwidth, so the
stored value at flat index `k` is `((k / stride) % shape[dim]) % 2 ^ bw`;
when `shape[dim]` exceeds `2 ^ bw` some stored value differs from the
exact coordinate. -/
theorem iota_values_truncated_to_bitwidth (bw : Nat) (shape : List Nat) (dim : Nat)
    (hdim : dim < shape.length) (hpos : ∀ d ∈ shape, 0 < d) :
    ConvertIotaOp ⟨⟨ElemType.int bw, shape⟩, dim⟩ =
      RewriteResult.replaceWith (StdOp.constant ⟨ElemType.int bw, shape⟩
        ((List.range shape.prod).map fun k =>
          ((k / (shape.drop (dim + 1)).prod) % getDimSize shape dim) % 2 ^ bw)) ∧
    (2 ^ bw < getDimSize shape dim →
      ∃ k, k < shape.prod ∧
        ((k / (shape.drop (dim + 1)).prod) % getDimSize shape dim) % 2 ^ bw ≠
          (k / (shape.drop (dim + 1)).prod) % getDimSize shape dim) := by
  have hpos' : ∀ d ∈ shape.take (dim + 1), 0 < d := fun d hd =>
    hpos d (List.take_subset _ _ hd)
  refine ⟨convertIota_norm bw shape dim hdim hpos', ?_⟩
  intro hlt
  have hstride : 0 < (shape.drop (dim + 1)).prod :=
    List.prod_pos fun d hd => hpos d (List.drop_subset _ _ hd)
  refine ⟨2 ^ bw * (shape.drop (dim + 1)).prod, ?_, ?_⟩
  · have h1 : shape.prod = (shape.take (dim + 1)).prod * (shape.drop (dim + 1)).prod :=
      (List.prod_take_mul_prod_drop shape (dim + 1)).symm
    have h2 : (shape.take (dim + 1)).prod = (shape.take dim).prod * shape[dim] :=
      List.prod_take_succ shape dim hdim
    have h3 : 0 < (shape.take dim).prod :=
      List.prod_pos fun d hd => hpos d (List.take_subset _ _ hd)
    rw [getDimSize_eq_getElem hdim] at hlt
    have h4 : 2 ^ bw < (shape.take (dim + 1)).prod := by
      rw [h2]
      calc 2 ^ bw < shape[dim] := hlt
        _ ≤ (shape.take dim).prod * shape[dim] := Nat.le_mul_of_pos_left _ h3
    rw [h1]
    exact mul_lt_mul_of_pos_right h4 hstride
  · rw [Nat.mul_div_cancel _ hstride, Nat.mod_eq_of_lt hlt, Nat.mod_self]
    exact Ne.symm (Nat.pos_iff_ne_zero.mp (pow_pos (by norm_num) bw))

/-- Witness for C10 at element type `i1`, shape `[3]`, dimension 0:
some stored value differs from its exact coordinate. -/
theorem iota_values_truncated_to_bitwidth_witness :
    ∃ k, k < ([3] : List Nat).prod ∧
      ((k / (([3] : List Nat).drop (0 + 1)).prod) % getDimSize [3] 0) % 2 ^ 1 ≠
        (k / (([3] : List Nat).drop (0 + 1)).prod) % getDimSize [3] 0 :=
  (iota_values_truncated_to_bitwidth 1 [3] 0 (by decide) (by decide)).2 (by decide)
